import Mathlib

/-!
Verification of the documentation-generator agent (task-signature cache and
rate-limited batch execution engine).

The development is a shallow embedding of the JavaScript sources:

* src/app.js — the primary agent ("SMART GIT LTM"): task-signature engine
  (generateTaskSignature), memoization store (findInLTM / saveToLTM), the
  rate-limited batch dispatcher and merge loop inside the execute handler,
  and buildOpenApiEndpoint.
* src/generate-docs.js — the legacy LTM-enabled agent variant: its
  generateTaskSignature (JSON.stringify based, no file sorting) and its
  buildOpenApiEndpoint.

JavaScript untyped values that the control flow inspects for truthiness are
modelled by the JVal type; fields that may be absent (undefined) are Options.
External collaborators (the inference worker, the remote-revision resolver,
JSON.parse of AI-supplied schema strings, the content digest) are parameters,
matching the specification's interface boundaries.  The cryptographic digest
is modelled at the message level: the signature of a task is the exact byte
sequence fed to the SHA-256 object via hash.update, which determines the
digest and equals it up to hash collisions.
-/

/-- JSON-like runtime values (the subset of JavaScript values flowing through
the agent).  Absent object properties (undefined) are modelled by Option at
the use sites, not by a JVal constructor. -/
inductive JVal where
  | null
  | bool (b : Bool)
  | num (n : Int)
  | str (s : String)
  | arr (xs : List JVal)
  | obj (fields : List (String × JVal))

/-- JavaScript truthiness of a value: null, false, 0 and the empty string are
falsy; every array and object is truthy. -/
def truthy : JVal → Bool
  | .null => false
  | .bool b => b
  | .num n => n != 0
  | .str s => s != ""
  | .arr _ => true
  | .obj _ => true

/-- Hexadecimal digit character (lower case), for JSON escapes. -/
def hexDigit (n : Nat) : Char :=
  if n < 10 then Char.ofNat (48 + n) else Char.ofNat (87 + n)

/-- JSON.stringify escaping of a single character inside a string literal. -/
def jsonEscapeChar (c : Char) : String :=
  if c = '"' then "\\\""
  else if c = '\\' then "\\\\"
  else if c.toNat = 8 then "\\b"
  else if c.toNat = 9 then "\\t"
  else if c.toNat = 10 then "\\n"
  else if c.toNat = 12 then "\\f"
  else if c.toNat = 13 then "\\r"
  else if c.toNat < 32 then
    "\\u00" ++ String.mk [hexDigit (c.toNat / 16), hexDigit (c.toNat % 16)]
  else String.singleton c

/-- JSON.stringify of a string value. -/
def jsonQuote (s : String) : String :=
  "\"" ++ String.join (s.toList.map jsonEscapeChar) ++ "\""

mutual

/-- JSON.stringify of a value (no spacing, as called by the agent). -/
def jvalToString : JVal → String
  | .null => "null"
  | .bool b => if b then "true" else "false"
  | .num n => toString n
  | .str s => jsonQuote s
  | .arr xs => "[" ++ jvalArrToString xs ++ "]"
  | .obj fs => "\x7b" ++ jvalObjToString fs ++ "\x7d"

/-- Comma-joined serialization of array elements. -/
def jvalArrToString : List JVal → String
  | [] => ""
  | [x] => jvalToString x
  | x :: y :: xs => jvalToString x ++ "," ++ jvalArrToString (y :: xs)

/-- Comma-joined serialization of object properties, in insertion order. -/
def jvalObjToString : List (String × JVal) → String
  | [] => ""
  | [(k, v)] => jsonQuote k ++ ":" ++ jvalToString v
  | (k, v) :: p :: xs => jsonQuote k ++ ":" ++ jvalToString v ++ "," ++ jvalObjToString (p :: xs)

end

/-- The JavaScript idiom s || d for strings: the empty string is falsy. -/
def strOr (s d : String) : String := if s = "" then d else s

/-- The idiom o || d where o is a possibly-absent string property. -/
def optStrOr (o : Option String) (d : String) : String :=
  match o with
  | some s => strOr s d
  | none => d

/-- Truthiness of a possibly-absent string property. -/
def truthyOptStr (o : Option String) : Bool :=
  match o with
  | some s => s != ""
  | none => false

/-- ASCII lower-casing of one character (the only case relevant to HTTP
method names, the sole use of toLowerCase in the agent). -/
def jsLowerChar (c : Char) : Char :=
  if 65 ≤ c.toNat ∧ c.toNat ≤ 90 then Char.ofNat (c.toNat + 32) else c

/-- The String.prototype.toLowerCase call applied to HTTP method names. -/
def jsToLower (s : String) : String := String.mk (s.toList.map jsLowerChar)

/-- ECMAScript whitespace recognized by String.prototype.trim (tab through
carriage return, space, no-break space, byte order mark). -/
def jsWhitespace (c : Char) : Bool :=
  c.toNat = 32 || (9 ≤ c.toNat && c.toNat ≤ 13) || c.toNat = 160 || c.toNat = 65279

/-- The String.prototype.trim call used to detect blank code snippets. -/
def jsTrim (s : String) : String :=
  String.mk (((s.toList.dropWhile jsWhitespace).reverse.dropWhile jsWhitespace).reverse)

/-- The String.prototype.split call with a one-character separator, as in
apiPath.split('/'); an empty string yields a single empty field. -/
def splitCharAux (c : Char) : List Char → List Char → List String
  | [], acc => [String.mk acc.reverse]
  | x :: xs, acc =>
    if x = c then String.mk acc.reverse :: splitCharAux c xs []
    else splitCharAux c xs (x :: acc)

/-- String split on one separator character. -/
def splitChar (c : Char) (s : String) : List String := splitCharAux c s.toList []

/-- One inline file of the InlineFiles task variant (code_files_base64 entry). -/
structure CodeFile where
  file_path : String
  content_base64 : String
deriving DecidableEq, Repr

/-- The task description read from the request body (results/task).  Absent
properties are none; search_patterns and existing_documentation may hold
arbitrary JSON. -/
structure TaskData where
  language : Option String
  search_patterns : Option JVal
  zip_file_base64 : Option String
  code_files_base64 : Option (List CodeFile)
  git_repo_url : Option String
  existing_documentation : Option JVal

/-- Stable insertion of an element into a list by a boolean comparator: x is
placed before the first y with le x y, hence before elements comparing equal.
Together with sortBy this models the stable Array.prototype.sort. -/
def insertBy {α : Type} (le : α → α → Bool) (x : α) : List α → List α
  | [] => [x]
  | y :: ys => if le x y then x :: y :: ys else y :: insertBy le x ys

/-- Stable sort by a boolean comparator (models Array.prototype.sort, which
ECMAScript requires to be a stable sort consistent with the comparator). -/
def sortBy {α : Type} (le : α → α → Bool) : List α → List α
  | [] => []
  | x :: xs => insertBy le x (sortBy le xs)

/-- Comparator of generateTaskSignature's sortedFiles
(src/app.js line 83): ascending a.file_path.localeCompare(b.file_path),
modelled as lexicographic string order. -/
def fileLE (a b : CodeFile) : Bool := a.file_path ≤ b.file_path

/-- The sorted copy [...files].sort(...) of src/app.js line 83. -/
def sortFilesByPath (files : List CodeFile) : List CodeFile :=
  sortBy fileLE files

/-- Chunks fed to the digest for the InlineFiles branch: for each file in
path-sorted order, the path then the content (src/app.js lines 83-87). -/
def appSigFileChunks (files : List CodeFile) : List String :=
  (sortFilesByPath files).foldr (fun f acc => f.file_path :: f.content_base64 :: acc) []

/-- Chunks fed to the digest for the repository branch (src/app.js
lines 88-96): the URL then the resolved commit hash, with the literal HEAD
substituted when resolution fails or yields a falsy value.  resolveCommit is
the external revision resolver (getGitCommitHash). -/
def appSigGitChunks (resolveCommit : String → Option String) (t : TaskData) : List String :=
  if truthyOptStr t.git_repo_url then
    let url := (t.git_repo_url).getD ""
    ["mode:git", url, optStrOr (resolveCommit url) "HEAD"]
  else []

/-- The guard code_files_base64 && code_files_base64.length > 0 of
src/app.js line 81. -/
def codeFilesNonempty (t : TaskData) : Bool :=
  match t.code_files_base64 with
  | some fs => fs.length != 0
  | none => false

/-- The exact sequence of hash.update calls made by generateTaskSignature
(src/app.js lines 72-103): language hint (or unknown), serialized search
patterns (or the serialized default literal), then the branch-tagged source
chunks, then the serialized prior document when truthy.  Note the branch
order: archive, then inline files, then repository. -/
def appSigChunks (resolveCommit : String → Option String) (t : TaskData) : List String :=
  let base := [optStrOr t.language "unknown",
               jvalToString (match t.search_patterns with
                 | some p => if truthy p then p else JVal.str "default"
                 | none => JVal.str "default")]
  let src :=
    if truthyOptStr t.zip_file_base64 then ["mode:zip", (t.zip_file_base64).getD ""]
    else if codeFilesNonempty t then
      "mode:files" :: appSigFileChunks ((t.code_files_base64).getD [])
    else appSigGitChunks resolveCommit t
  let docPart := match t.existing_documentation with
    | some d => if truthy d then [jvalToString d] else []
    | none => []
  base ++ src ++ docPart

/-- The full byte sequence fed to the SHA-256 digest by generateTaskSignature:
hash.update concatenates its arguments, so the digest is a function of this
concatenation alone.  Two tasks have the same signature iff their inputs are
equal (up to hash collisions). -/
def appSigInput (resolveCommit : String → Option String) (t : TaskData) : String :=
  String.join (appSigChunks resolveCommit t)

/-- The object serialized by the legacy generateTaskSignature
(src/generate-docs.js lines 125-137): keys in literal order lang, git,
zip_hash, files, doc, patterns; keys with undefined values are omitted by
JSON.stringify; zip_hash is null (not omitted) when no archive is present;
the files array is serialized in presentation order, unsorted.  sha256hex is
the content digest applied to the archive bytes. -/
def legacySigFields (sha256hex : String → String) (t : TaskData) : List (String × JVal) :=
  (match t.language with | some s => [("lang", JVal.str s)] | none => []) ++
  (match t.git_repo_url with | some s => [("git", JVal.str s)] | none => []) ++
  [("zip_hash", match t.zip_file_base64 with
      | some z => if z = "" then JVal.null else JVal.str (sha256hex z)
      | none => JVal.null)] ++
  (match t.code_files_base64 with
      | some fs => [("files", JVal.arr (fs.map (fun f =>
          JVal.obj [("file_path", JVal.str f.file_path),
                    ("content_base64", JVal.str f.content_base64)])))]
      | none => []) ++
  (match t.existing_documentation with | some d => [("doc", d)] | none => []) ++
  (match t.search_patterns with | some p => [("patterns", p)] | none => [])

/-- The signatureString hashed by the legacy generateTaskSignature; as above,
the digest is determined by (and equal to, up to collisions) this string. -/
def legacySigString (sha256hex : String → String) (t : TaskData) : String :=
  jvalToString (JVal.obj (legacySigFields sha256hex t))

/-- Which task-source variant a code path selects. -/
inductive SourceMode where
  | archive
  | repository
  | inlineFiles
  | noSource
deriving DecidableEq, Repr

/-- Branch order of generateTaskSignature (src/app.js lines 78-97):
archive, then inline files, then repository. -/
def signatureMode (t : TaskData) : SourceMode :=
  if truthyOptStr t.zip_file_base64 then .archive
  else if codeFilesNonempty t then .inlineFiles
  else if truthyOptStr t.git_repo_url then .repository
  else .noSource

/-- Branch order of the execute handler's input handling (src/app.js
lines 180-198): archive, then repository, then inline files (an inline files
property that is present, even as an empty array, is truthy there). -/
def dispatchMode (t : TaskData) : SourceMode :=
  if truthyOptStr t.zip_file_base64 then .archive
  else if truthyOptStr t.git_repo_url then .repository
  else if (t.code_files_base64).isSome then .inlineFiles
  else .noSource

/-- The retention window of the memoization store (src/app.js line 35). -/
def LTM_WINDOW_SIZE : Nat := 10

/-- One memoization entry: { result, timestamp }.  The timestamp written by
the code is an ISO date string; it is modelled as its epoch instant, with
none standing for an entry (read back from disk) whose timestamp property is
missing or falsy. -/
structure LTMEntry (ρ : Type) where
  result : ρ
  timestamp : Option Nat
deriving DecidableEq, Repr

/-- The in-memory LTM object: property insertion order is observable through
Object.entries, so the object is an insertion-ordered association list.  The
store holds arbitrary JSON results; theorems are stated generically in the
result type ρ together with its truthiness test. -/
abbrev LTMStore (ρ : Type) := List (String × LTMEntry ρ)

/-- JavaScript object property write o[k] = v: an existing property keeps its
position in insertion order; a new property is appended. -/
def objSet {β : Type} (k : String) (v : β) (o : List (String × β)) : List (String × β) :=
  if o.any (fun p => p.1 == k) then o.map (fun p => if p.1 == k then (k, v) else p)
  else o ++ [(k, v)]

/-- JavaScript object property read o[k]. -/
def objLookup {β : Type} (k : String) (o : List (String × β)) : Option β :=
  (o.find? (fun p => p.1 == k)).map (fun p => p.2)

/-- Well-formedness of an object model: property keys are distinct (always
true of a real JavaScript object). -/
def keysNodup {β : Type} (o : List (String × β)) : Prop :=
  (o.map Prod.fst).Nodup

instance {β : Type} (o : List (String × β)) : Decidable (keysNodup o) := by
  unfold keysNodup; infer_instance

/-- Truthiness of the stored timestamp property. -/
def truthyTimestamp (o : Option Nat) : Bool := o.isSome

/-- findInLTM (src/app.js lines 106-109): a hit requires the entry to exist
and to carry a truthy result and a truthy timestamp; tr is the truthiness
test of the stored result type. -/
def findInLTM {ρ : Type} (tr : ρ → Bool) (signature : String) (ltmData : LTMStore ρ) : Option ρ :=
  match objLookup signature ltmData with
  | some e => if tr e.result && truthyTimestamp e.timestamp then some e.result else none
  | none => none

/-- The eviction comparator of saveToLTM (src/app.js line 117):
new Date(a[1].timestamp) - new Date(b[1].timestamp), ascending.  When either
timestamp is missing or falsy the subtraction is NaN; Array.prototype.sort
treats a NaN comparator value as 0 (elements compare equal). -/
def tsLE {ρ : Type} (a b : String × LTMEntry ρ) : Bool :=
  match a.2.timestamp, b.2.timestamp with
  | some x, some y => x ≤ y
  | _, _ => true

/-- The statement delete ltmData[k]. -/
def deleteKey {β : Type} (k : String) (o : List (String × β)) : List (String × β) :=
  o.filter (fun p => p.1 != k)

/-- saveToLTM (src/app.js lines 111-122): write the entry with the current
timestamp, then, if the store now exceeds the window, sort entries by
ascending timestamp (stable) and delete the oldest until the window size is
reached. -/
def saveToLTM {ρ : Type} (signature : String) (result : ρ) (now : Nat)
    (ltmData : LTMStore ρ) : LTMStore ρ :=
  let d := objSet signature ⟨result, some now⟩ ltmData
  if d.length > LTM_WINDOW_SIZE then
    let sorted := sortBy tsLE d
    let keysToDelete := (sorted.take (d.length - LTM_WINDOW_SIZE)).map Prod.fst
    keysToDelete.foldl (fun acc k => deleteKey k acc) d
  else d

/-- An error-response entry supplied by the inference worker. -/
structure ErrResp where
  code : String
  description : String
deriving DecidableEq, Repr

/-- One raw endpoint description returned by the inference worker.  A missing
path or method is modelled by the empty string (both are falsy and the code
only tests truthiness and, when truthy, uses the string value). -/
structure Endpoint where
  path : String
  method : String
  summary : Option String
  description : Option String
  tags : Option (List String)
  requestBodySchema : Option String
  successResponseSchema : Option String
  errorResponses : Option (List ErrResp)
deriving DecidableEq, Repr

/-- The parsed JSON object returned by a successful inference call; its
endpoints property may be absent. -/
structure AIResp where
  endpoints : Option (List Endpoint)
deriving DecidableEq, Repr

/-- The requestBody clause built for an endpoint. -/
structure RequestBodyObj where
  description : String
  required : Bool
  schema : JVal

/-- One entry of the responses object: error entries carry no content; the
success entry carries the response schema. -/
structure ResponseObj where
  description : String
  schema : Option JVal

/-- The canonical endpoint description assembled by buildOpenApiEndpoint. -/
structure OpenApiEndpoint where
  summary : String
  description : String
  tags : List String
  requestBody : Option RequestBodyObj
  responses : List (String × ResponseObj)

/-- The default tag apiPath.split('/')[1] || 'default'
(src/app.js line 413). -/
def defaultTag (apiPath : String) : String :=
  match (splitChar '/' apiPath).get? 1 with
  | some s => strOr s "default"
  | none => "default"

/-- The guarded try JSON.parse of a schema string: a falsy (absent or empty)
string is not parsed; a parse error leaves null.  parseJson stands for the
runtime JSON.parse, an external primitive. -/
def parseSchema (parseJson : String → Option JVal) (o : Option String) : Option JVal :=
  match o with
  | some s => if s = "" then none else parseJson s
  | none => none

/-- buildOpenApiEndpoint of the primary agent (src/app.js lines 411-428).
The success response is keyed 201 for post and 200 otherwise; error entries
with a falsy code are skipped; the requestBody clause appears only when the
parsed schema is truthy. -/
def buildOpenApiEndpoint (parseJson : String → Option JVal) (e : Endpoint) : OpenApiEndpoint :=
  let reqSchema := parseSchema parseJson e.requestBodySchema
  let resSchema := parseSchema parseJson e.successResponseSchema
  let requestBody := match reqSchema with
    | some v => if truthy v then some ⟨"Body", true, v⟩ else none
    | none => none
  let successKey := if jsToLower e.method = "post" then "201" else "200"
  let successSchema := match resSchema with
    | some v => if truthy v then v else JVal.obj [("type", JVal.str "object")]
    | none => JVal.obj [("type", JVal.str "object")]
  let responses0 := objSet successKey ⟨"Success", some successSchema⟩ []
  let responses := match e.errorResponses with
    | some errs => errs.foldl (fun acc err =>
        if err.code = "" then acc else objSet err.code ⟨err.description, none⟩ acc) responses0
    | none => responses0
  { summary := optStrOr e.summary "No summary"
    description := optStrOr e.description "No description"
    tags := (e.tags).getD [defaultTag e.path]
    requestBody := requestBody
    responses := responses }

/-- Object.keys(v).length for an arbitrary parsed value (the legacy variant
applies it to whatever JSON.parse returned): property count of an object,
index count of an array or string, 0 for primitives. -/
def jvalKeysCount : JVal → Nat
  | .obj fs => fs.length
  | .arr xs => xs.length
  | .str s => s.length
  | _ => 0

/-- buildOpenApiEndpoint of the legacy agent variant (src/generate-docs.js
lines 751-810).  Its creation-status literal is the corrupted string
201Ãƒ (mojibake of 201) rather than 201; its requestBody clause
additionally requires a non-empty parsed object; its default texts differ. -/
def legacyBuildOpenApiEndpoint (parseJson : String → Option JVal) (e : Endpoint) : OpenApiEndpoint :=
  let lcMethod := jsToLower e.method
  let reqSchema := parseSchema parseJson e.requestBodySchema
  let resSchema := parseSchema parseJson e.successResponseSchema
  let requestBody := match reqSchema with
    | some v =>
        if truthy v && (jvalKeysCount v != 0) then
          some ⟨"Request body for " ++ lcMethod ++ " " ++ e.path, true, v⟩
        else none
    | none => none
  let successKey := if lcMethod = "post" then "201Ãƒ" else "200"
  let successSchema := match resSchema with
    | some v => if truthy v then v else
        JVal.obj [("type", JVal.str "object"),
                  ("properties", JVal.obj [("message", JVal.obj [("type", JVal.str "string")])])]
    | none =>
        JVal.obj [("type", JVal.str "object"),
                  ("properties", JVal.obj [("message", JVal.obj [("type", JVal.str "string")])])]
  let responses0 := objSet successKey ⟨"Successful operation", some successSchema⟩ []
  let responses := match e.errorResponses with
    | some errs => errs.foldl (fun acc err =>
        if err.code = "" then acc else objSet err.code ⟨err.description, none⟩ acc) responses0
    | none => responses0
  { summary := optStrOr e.summary "No summary provided"
    description := optStrOr e.description "No description provided"
    tags := (e.tags).getD [defaultTag e.path]
    requestBody := requestBody
    responses := responses }

/-- One file to analyze (filesToProcess entry). -/
structure WorkItem where
  file_path : String
  code_snippet : String
deriving DecidableEq, Repr

/-- The settled value of one wrapped batch promise: the file, the parsed
inference response (null on failure or when the worker resolved null), the
status tag, and the captured error message. -/
structure SettledVal where
  file : WorkItem
  aiResponse : Option AIResp
  status : String
  errMsg : Option String
deriving DecidableEq, Repr

/-- The external inference worker callGeminiAPI, per call: a parsed response
or a raised error.  A worker may also resolve to a falsy parsed value,
modelled as ok none. -/
abbrev WorkerFun := WorkItem → Except String (Option AIResp)

/-- The eventual settled value of the wrapped promise built for one batch
item (src/app.js lines 222-230): an item with falsy or blank content resolves
to null without invoking the worker; a worker success is wrapped with status
success; a worker error is caught and wrapped with status error so that it
cannot reject Promise.all. -/
def promiseValue (worker : WorkerFun) (f : WorkItem) : Option SettledVal :=
  if f.code_snippet == "" || jsTrim f.code_snippet == "" then none
  else match worker f with
    | .ok r => some ⟨f, r, "success", none⟩
    | .error e => some ⟨f, none, "error", some e⟩

/-- One entry of file_by_file_results.  On the error path the code pushes an
object without a language_detected property (src/app.js line 236), hence the
Option. -/
structure FileReport where
  file_path : String
  language_detected : Option String
  endpoints_found : Nat
  documentation : List Endpoint
deriving DecidableEq, Repr

/-- The methods object stored under one API path. -/
abbrev MethodMap := List (String × OpenApiEndpoint)

/-- The paths object of the result document. -/
abbrev PathsMap := List (String × MethodMap)

/-- Merging one raw endpoint into the paths object (src/app.js
lines 249-255): a falsy path or method is silently skipped; otherwise the
built description is written at (path, lower-cased method), last write wins. -/
def mergeEndpoint (parseJson : String → Option JVal) (paths : PathsMap) (e : Endpoint) : PathsMap :=
  if e.path = "" ∨ e.method = "" then paths
  else
    let entry := buildOpenApiEndpoint parseJson e
    let cur := (objLookup e.path paths).getD []
    objSet e.path (objSet (jsToLower e.method) entry cur) paths

/-- The mutable state threaded through the merge loop: the shared paths
object, the accumulated file_by_file_results, and totalEndpointsFound. -/
structure LoopState where
  paths : PathsMap
  reports : List FileReport
  total : Nat

/-- The paths-object effect of consuming one settled batch result
(src/app.js lines 234-255): only a successful result with a truthy parsed
response merges its endpoints. -/
def pathsStep (parseJson : String → Option JVal) (paths : PathsMap) (r : Option SettledVal) : PathsMap :=
  match r with
  | none => paths
  | some s =>
    match s.aiResponse with
    | none => paths
    | some resp =>
      if s.status = "error" then paths
      else (resp.endpoints.getD []).foldl (mergeEndpoint parseJson) paths

/-- The file_by_file_results entry pushed for one settled batch result: a
null result reports the Unknown placeholder; an error or null response
reports zero endpoints without a language; a success reports the endpoint
list and the detected language. -/
def reportFor (lang : String) (r : Option SettledVal) : FileReport :=
  match r with
  | none => ⟨"Unknown", none, 0, []⟩
  | some s =>
    match s.aiResponse with
    | none => ⟨strOr s.file.file_path "Unknown", none, 0, []⟩
    | some resp =>
      if s.status = "error" then ⟨strOr s.file.file_path "Unknown", none, 0, []⟩
      else
        let eps := resp.endpoints.getD []
        ⟨s.file.file_path, some lang, eps.length, eps⟩

/-- The totalEndpointsFound increment for one settled batch result. -/
def totalFor (r : Option SettledVal) : Nat :=
  match r with
  | none => 0
  | some s =>
    match s.aiResponse with
    | none => 0
    | some resp => if s.status = "error" then 0 else (resp.endpoints.getD []).length

/-- Serial consumption of one settled batch result inside
for (const result of batchResults) (src/app.js lines 234-257). -/
def stepSettled (parseJson : String → Option JVal) (lang : String) (st : LoopState)
    (r : Option SettledVal) : LoopState :=
  ⟨pathsStep parseJson st.paths r, st.reports ++ [reportFor lang r], st.total + totalFor r⟩

/-- One settlement event: the promise at index i of the batch writes its
value into slot i of the result array Promise.all is assembling. -/
def settleStep {β : Type} (vs : List β) (acc : List (Option β)) (i : Nat) : List (Option β) :=
  match vs[i]? with
  | some v => acc.set i (some v)
  | none => acc

/-- The result array assembled by Promise.all for one batch: promises settle
in an arbitrary completion order, each writing its value at its own index;
vs are the eventual values by index. -/
def settleAll {β : Type} (vs : List β) (order : List Nat) : List (Option β) :=
  order.foldl (settleStep vs) (List.replicate vs.length none)

/-- The batch size GEMINI_RPM_LIMIT (src/app.js line 214). -/
def GEMINI_RPM_LIMIT : Nat := 10

/-- The result array Promise.all delivers for one batch of work items under a
given completion order.  An outer none is a slot whose promise has not
settled; Promise.all only resumes once every slot is filled. -/
def batchSettled (worker : WorkerFun) (batch : List WorkItem) (order : List Nat) :
    List (Option (Option SettledVal)) :=
  settleAll (batch.map (promiseValue worker)) order

/-- The agent loop over batches (src/app.js lines 219-263), parameterized by
the per-batch completion orders of the concurrent worker calls.  The fuel
argument only drives the recursion; runBatches supplies files.length, which
always suffices because each round consumes at least one file.  The
inter-batch 60 s cooldown is pure waiting and has no effect on the state. -/
def runBatchesFuel (parseJson : String → Option JVal) (lang : String) (worker : WorkerFun) :
    Nat → List WorkItem → List (List Nat) → LoopState → LoopState
  | 0, _, _, st => st
  | _ + 1, [], _, st => st
  | fuel + 1, files@(_ :: _), orders, st =>
    let batch := files.take GEMINI_RPM_LIMIT
    let settled := batchSettled worker batch (orders.headD [])
    let st2 := settled.foldl (fun s o => stepSettled parseJson lang s o.join) st
    runBatchesFuel parseJson lang worker fuel (files.drop GEMINI_RPM_LIMIT) orders.tail st2

/-- The agent loop: batches of at most GEMINI_RPM_LIMIT files, processed in
order, each batch's settled results consumed serially in original item
order. -/
def runBatches (parseJson : String → Option JVal) (lang : String) (worker : WorkerFun)
    (files : List WorkItem) (orders : List (List Nat)) (st : LoopState) : LoopState :=
  runBatchesFuel parseJson lang worker files.length files orders st

/-- The order-free reference run: every item consumed serially in list order
with its eventual settled value.  runBatches coincides with it whenever every
batch's completion order settles all of its promises. -/
def runSerial (parseJson : String → Option JVal) (lang : String) (worker : WorkerFun)
    (files : List WorkItem) (st : LoopState) : LoopState :=
  files.foldl (fun s f => stepSettled parseJson lang s (promiseValue worker f)) st

/-- A completion order for a batch of n promises is complete when every index
settles. -/
def completeOrder (n : Nat) (order : List Nat) : Bool :=
  (List.range n).all (fun j => decide (j ∈ order))

/-- Validity of a completion-order list for a run: each batch's order settles
every promise of that batch (Promise.all waits for exactly that). -/
def validOrdersFuel : Nat → List WorkItem → List (List Nat) → Bool
  | 0, _, _ => true
  | _ + 1, [], _ => true
  | fuel + 1, files@(_ :: _), orders =>
    completeOrder (files.take GEMINI_RPM_LIMIT).length (orders.headD []) &&
    validOrdersFuel fuel (files.drop GEMINI_RPM_LIMIT) orders.tail

/-- Validity of the per-batch completion orders for a file list. -/
def validOrders (files : List WorkItem) (orders : List (List Nat)) : Bool :=
  validOrdersFuel files.length files orders

/-- The fresh result-document header created on a miss without a prior
document (src/app.js line 208), minus its paths property, which the model
tracks separately as a PathsMap. -/
def defaultDocHeader : JVal :=
  JVal.obj [("openapi", JVal.str "3.0.0"),
            ("info", JVal.obj [("title", JVal.str "API Docs"),
                               ("version", JVal.str "1.0.0")])]

/-- A value with typeof object: an object, an array, or null; combined with a
truthiness test this is the existing_documentation guard of src/app.js
line 206. -/
def jvalIsObjType : JVal → Bool
  | .obj _ => true
  | .arr _ => true
  | _ => false

/-- The result document: its non-path fields (the supplied prior document or
the fresh default header) and its paths object.  When a prior document is
used, priorPaths stands for the decoded endpoint entries its paths property
already carried; the merge loop only ever writes entries through objSet, so
their representation is otherwise opaque. -/
structure Doc where
  header : JVal
  paths : PathsMap

/-- Loading the existing documentation or creating it from scratch
(src/app.js lines 206-209). -/
def docInit (existing : Option JVal) (priorPaths : PathsMap) : Doc :=
  match existing with
  | some v => if truthy v && jvalIsObjType v then ⟨v, priorPaths⟩ else ⟨defaultDocHeader, []⟩
  | none => ⟨defaultDocHeader, []⟩

/-- The results/task object of a task response.  The empty-object literals of
the no-files early response are represented by the empty paths map and the
empty report list. -/
structure ResTask where
  status_message : String
  endpoints_found : Nat
  file_by_file_results : List FileReport
  merged_documentation : Doc
  ltm_hit : Bool

/-- Truthiness of a stored results/task value: it is always an object, hence
always truthy. -/
def trueResTask : ResTask → Bool := fun _ => true

/-- createSuccessResponseFromCache (src/app.js lines 304-323) restricted to
the results/task payload: the cached object is returned with its
status_message prefixed by the LTM HIT marker and ltm_hit set to true;
every other field is the stored value, verbatim. -/
def annotateHit (cached : ResTask) : ResTask :=
  { cached with status_message := "[LTM HIT] " ++ cached.status_message, ltm_hit := true }

/-- The worker invocations a run performs: one callGeminiAPI call per file
with truthy, non-blank content (src/app.js lines 222-224). -/
def countWorkerCalls (files : List WorkItem) : Nat :=
  (files.filter (fun f => !(f.code_snippet == "" || jsTrim f.code_snippet == ""))).length

/-- The observable outcome of one execute call: the results/task payload
returned, the store left behind, and how many worker calls were made. -/
structure ExecOut where
  resTask : ResTask
  store : LTMStore ResTask
  workerCalls : Nat

/-- The execute handler (src/app.js lines 130-281) restricted to the core:
compute the signature, probe the store; on a hit return the cached payload
annotated, without touching the store or the worker; on a miss with no files
return the distinct no-files payload without saving; otherwise run the batch
loop, assemble the payload, save it and return it.  files stands for the
discovery collaborator's output for this task, detectedLanguage for
detectLanguage's result; both are functions of the task alone for identical
resubmissions.  The HTTP envelope (message ids, timestamps) is outside the
results/task payload and outside this model. -/
def noFilesResTask : ResTask :=
  ⟨"No files found.", 0, [], ⟨JVal.obj [], []⟩, false⟩

/-- The results/task payload assembled by a miss-path run over a non-empty
file list (src/app.js lines 206-272): initialize the document, run the batch
loop, and wrap the final state.  Independent of the wall-clock instant. -/
def missResTask (parseJson : String → Option JVal) (t : TaskData) (files : List WorkItem)
    (priorPaths : PathsMap) (detectedLanguage : String) (worker : WorkerFun)
    (orders : List (List Nat)) : ResTask :=
  let doc0 := docInit t.existing_documentation priorPaths
  let st := runBatches parseJson detectedLanguage worker files orders ⟨doc0.paths, [], 0⟩
  ⟨"Processed " ++ toString st.total ++ " endpoints.", st.total, st.reports,
   ⟨doc0.header, st.paths⟩, false⟩

def handleExecute (parseJson : String → Option JVal) (resolveCommit : String → Option String)
    (t : TaskData) (files : List WorkItem) (priorPaths : PathsMap) (detectedLanguage : String)
    (worker : WorkerFun) (orders : List (List Nat)) (now : Nat)
    (store : LTMStore ResTask) : ExecOut :=
  let signature := appSigInput resolveCommit t
  match findInLTM trueResTask signature store with
  | some cached => ⟨annotateHit cached, store, 0⟩
  | none =>
    if files.isEmpty then
      ⟨noFilesResTask, store, 0⟩
    else
      let resTask := missResTask parseJson t files priorPaths detectedLanguage worker orders
      ⟨resTask, saveToLTM signature resTask now store, countWorkerCalls files⟩

/-- A JSON.parse stand-in that always fails (schema strings unused). -/
def parseNone : String → Option JVal := fun _ => none

/-- A revision resolver stand-in that always fails (repository mode unused). -/
def resolveNone : String → Option String := fun _ => none

/-- A digest stand-in for the archive hash (archive mode unused). -/
def shaNone : String → String := fun _ => ""

/-- First InlineFiles task of the signature-collision pair: one file with
path ab and content c. -/
def taskFilesAB : TaskData :=
  ⟨none, none, none, some [⟨"ab", "c"⟩], none, none⟩

/-- Second InlineFiles task of the signature-collision pair: one file with
path a and content bc — different effective file contents. -/
def taskFilesBC : TaskData :=
  ⟨none, none, none, some [⟨"a", "bc"⟩], none, none⟩

/-- A task populating both the repository and the inline-files variants. -/
def taskBothSources : TaskData :=
  ⟨none, none, none, some [⟨"a.js", "Zm9v"⟩], some "https://example.com/repo.git", none⟩

/-- InlineFiles task listing files a then b (legacy fingerprint pair). -/
def taskOrderAB : TaskData :=
  ⟨none, none, none, some [⟨"a", "1"⟩, ⟨"b", "2"⟩], none, none⟩

/-- InlineFiles task listing the same files b then a. -/
def taskOrderBA : TaskData :=
  ⟨none, none, none, some [⟨"b", "2"⟩, ⟨"a", "1"⟩], none, none⟩

/-- The bounded-retention scenario: LTM_WINDOW_SIZE + 1 puts of distinct
signatures sig0 … sig10 with strictly increasing timestamps into an empty
store. -/
def ltmScenarioStore : LTMStore String :=
  (List.range (LTM_WINDOW_SIZE + 1)).foldl
    (fun d i => saveToLTM ("sig" ++ toString i) "result" i d) []

/-- An LTM store of LTM_WINDOW_SIZE entries all stamped later than the
insertion instant used in the round-trip counterexample. -/
def ltmFutureStore : LTMStore String :=
  (List.range LTM_WINDOW_SIZE).map (fun i => ("key" ++ toString i, ⟨"old", some 100⟩))

theorem insertBy_perm {α : Type} (le : α → α → Bool) (x : α) (l : List α) :
    (insertBy le x l).Perm (x :: l) := by
  induction l with
  | nil => simp [insertBy]
  | cons y ys ih =>
    simp only [insertBy]
    split
    · exact List.Perm.refl _
    · exact (ih.cons y).trans (List.Perm.swap x y ys)

theorem sortBy_perm {α : Type} (le : α → α → Bool) (l : List α) :
    (sortBy le l).Perm l := by
  induction l with
  | nil => simp [sortBy]
  | cons x xs ih => exact (insertBy_perm le x (sortBy le xs)).trans (ih.cons x)

theorem insertBy_pairwise {α : Type} {le : α → α → Bool}
    (total : ∀ a b, (le a b || le b a) = true)
    (htrans : ∀ a b c, le a b = true → le b c = true → le a c = true)
    (x : α) {l : List α} (hl : l.Pairwise (fun a b => le a b = true)) :
    (insertBy le x l).Pairwise (fun a b => le a b = true) := by
  induction l with
  | nil => simp [insertBy]
  | cons y ys ih =>
    simp only [insertBy]
    by_cases hxy : le x y = true
    · rw [if_pos hxy]
      refine List.Pairwise.cons ?_ hl
      intro z hz
      rcases List.mem_cons.mp hz with rfl | hz
      · exact hxy
      · exact htrans x y z hxy ((List.pairwise_cons.mp hl).1 z hz)
    · rw [if_neg hxy]
      have hyx : le y x = true := by
        rcases Bool.or_eq_true_iff.mp (total x y) with h | h
        · exact absurd h hxy
        · exact h
      refine List.Pairwise.cons ?_ (ih (List.pairwise_cons.mp hl).2)
      intro z hz
      have hz2 := (insertBy_perm le x ys).subset hz
      rcases List.mem_cons.mp hz2 with rfl | hz3
      · exact hyx
      · exact (List.pairwise_cons.mp hl).1 z hz3

theorem sortBy_pairwise {α : Type} {le : α → α → Bool}
    (total : ∀ a b, (le a b || le b a) = true)
    (htrans : ∀ a b c, le a b = true → le b c = true → le a c = true)
    (l : List α) : (sortBy le l).Pairwise (fun a b => le a b = true) := by
  induction l with
  | nil => simp [sortBy]
  | cons x xs ih => exact insertBy_pairwise total htrans x ih

theorem fileLE_total : ∀ a b : CodeFile, (fileLE a b || fileLE b a) = true := by
  intro a b
  simp only [fileLE, Bool.or_eq_true, decide_eq_true_eq]
  exact le_total a.file_path b.file_path

theorem fileLE_trans : ∀ a b c : CodeFile,
    fileLE a b = true → fileLE b c = true → fileLE a c = true := by
  intro a b c hab hbc
  simp only [fileLE, decide_eq_true_eq] at *
  exact le_trans hab hbc

theorem sorted_eq_of_perm : ∀ {l₁ l₂ : List CodeFile},
    l₁.Perm l₂ →
    l₁.Pairwise (fun a b => fileLE a b = true) →
    l₂.Pairwise (fun a b => fileLE a b = true) →
    (l₁.map CodeFile.file_path).Nodup → l₁ = l₂ := by
  intro l₁
  induction l₁ with
  | nil => intro l₂ hp _ _ _; simpa using hp.nil_eq
  | cons a t₁ ih =>
    intro l₂ hp hs₁ hs₂ hn
    cases l₂ with
    | nil => exact absurd hp.symm.nil_eq (by simp)
    | cons b t₂ =>
      have hab : a = b := by
        have ha2 : a ∈ b :: t₂ := hp.subset (List.mem_cons_self a t₁)
        rcases List.mem_cons.mp ha2 with h | ha3
        · exact h
        · have hb1 : b ∈ a :: t₁ := hp.symm.subset (List.mem_cons_self b t₂)
          rcases List.mem_cons.mp hb1 with h | hb3
          · exact h.symm
          · exfalso
            have h1 : fileLE a b = true := (List.pairwise_cons.mp hs₁).1 b hb3
            have h2 : fileLE b a = true := (List.pairwise_cons.mp hs₂).1 a ha3
            simp only [fileLE, decide_eq_true_eq] at h1 h2
            have hpath : b.file_path = a.file_path := le_antisymm h2 h1
            have hmem : a.file_path ∈ t₁.map CodeFile.file_path :=
              hpath ▸ List.mem_map_of_mem CodeFile.file_path hb3
            exact (List.nodup_cons.mp hn).1 hmem
      subst hab
      have := ih hp.cons_inv (List.pairwise_cons.mp hs₁).2 (List.pairwise_cons.mp hs₂).2
        (List.nodup_cons.mp (by simpa using hn)).2
      rw [this]

theorem sortFiles_eq_of_perm {l₁ l₂ : List CodeFile} (hp : l₁.Perm l₂)
    (hn : (l₁.map CodeFile.file_path).Nodup) :
    sortFilesByPath l₁ = sortFilesByPath l₂ := by
  have hperm : (sortFilesByPath l₁).Perm (sortFilesByPath l₂) :=
    (sortBy_perm fileLE l₁).trans (hp.trans (sortBy_perm fileLE l₂).symm)
  have hn1 : ((sortFilesByPath l₁).map CodeFile.file_path).Nodup :=
    (((sortBy_perm fileLE l₁).map CodeFile.file_path).nodup_iff).mpr hn
  exact sorted_eq_of_perm hperm (sortBy_pairwise fileLE_total fileLE_trans l₁)
    (sortBy_pairwise fileLE_total fileLE_trans l₂) hn1

/-- C3 (amended): the primary signature engine (src/app.js
generateTaskSignature) is order-independent for the InlineFiles variant —
two task descriptions holding the same set of files (distinct paths) in
different list orders, all other fields equal, feed the same byte sequence to
the digest and hence get the same signature, because the files are sorted by
path ascending before hashing.  The legacy variant in src/generate-docs.js
does not sort and is order-sensitive (see its counterexample). -/
theorem claim_C3_sorted_order_independent (resolveCommit : String → Option String)
    (t : TaskData) (l₁ l₂ : List CodeFile) (hp : l₁.Perm l₂)
    (hn : (l₁.map CodeFile.file_path).Nodup) :
    appSigInput resolveCommit { t with code_files_base64 := some l₁ } =
    appSigInput resolveCommit { t with code_files_base64 := some l₂ } := by
  have hsort := sortFiles_eq_of_perm hp hn
  have hlen := hp.length_eq
  have hfc : appSigFileChunks l₁ = appSigFileChunks l₂ := by
    unfold appSigFileChunks
    rw [hsort]
  have hgit : appSigGitChunks resolveCommit { t with code_files_base64 := some l₁ } =
      appSigGitChunks resolveCommit { t with code_files_base64 := some l₂ } := rfl
  simp only [appSigInput, appSigChunks, codeFilesNonempty, Option.getD_some]
  rw [hlen, hfc, hgit]

/-- C3 counterexample: the legacy generateTaskSignature of
src/generate-docs.js serializes the file list in presentation order, so the
two presentations of the same file set produce different signature strings
(hence different signatures, barring a hash collision); the claim as stated
over both cited implementations fails. -/
theorem claim_C3_counterexample :
    legacySigString shaNone taskOrderAB ≠ legacySigString shaNone taskOrderBA := by
  decide

/-- Witness for C3: the two-file example of the specification, instantiated
concretely. -/
theorem claim_C3_witness :
    ([⟨"a", "1"⟩, ⟨"b", "2"⟩] : List CodeFile).Perm [⟨"b", "2"⟩, ⟨"a", "1"⟩] ∧
    (([⟨"a", "1"⟩, ⟨"b", "2"⟩] : List CodeFile).map CodeFile.file_path).Nodup ∧
    appSigInput resolveNone taskOrderAB = appSigInput resolveNone taskOrderBA := by
  refine ⟨List.Perm.swap _ _ _, by decide, ?_⟩
  exact claim_C3_sorted_order_independent resolveNone taskOrderAB
    [⟨"a", "1"⟩, ⟨"b", "2"⟩] [⟨"b", "2"⟩, ⟨"a", "1"⟩] (List.Perm.swap _ _ _) (by decide)

/-- C4: the byte sequence generateTaskSignature feeds to the digest is not
injective in the effective file contents — hash.update concatenates path and
content chunks with no separators, so the distinct one-file tasks
(path ab, content c) and (path a, content bc) feed the identical byte
sequence and receive the identical signature. -/
theorem claim_C4_collision :
    appSigInput resolveNone taskFilesAB = appSigInput resolveNone taskFilesBC ∧
    taskFilesAB.code_files_base64 ≠ taskFilesBC.code_files_base64 := by
  exact ⟨by decide, by decide⟩

/-- C5: on a task populating both the repository and the inline-files
variants, the execute handler's dispatch selects the repository (archive,
then repository, then inline files) while generateTaskSignature hashes the
inline files (archive, then inline files, then repository): the two paths do
not select the same variant, and the signature branch order contradicts the
claimed Archive > RepositoryReference > InlineFiles precedence. -/
theorem claim_C5_variant_mismatch :
    dispatchMode taskBothSources = SourceMode.repository ∧
    signatureMode taskBothSources = SourceMode.inlineFiles ∧
    signatureMode taskBothSources ≠ dispatchMode taskBothSources ∧
    (appSigChunks resolveNone taskBothSources).contains "mode:files" = true ∧
    (appSigChunks resolveNone taskBothSources).contains "mode:git" = false := by
  refine ⟨by decide, by decide, by decide, by decide, by decide⟩

/-- C9: the success-response key rule.  The primary buildOpenApiEndpoint
(src/app.js line 419) keys the success clause 201 for post and 200
otherwise, as claimed; the legacy variant (src/generate-docs.js line 795)
uses the corrupted literal 201Ãƒ instead of 201 for post, contradicting the
claimed fixed rule on that cited implementation. -/
theorem claim_C9_status_code :
    ((legacyBuildOpenApiEndpoint parseNone
        ⟨"/x", "POST", some "S", none, none, none, none, none⟩).responses.map Prod.fst
      = ["201Ãƒ"]) ∧
    ((buildOpenApiEndpoint parseNone
        ⟨"/x", "POST", some "S", none, none, none, none, none⟩).responses.map Prod.fst
      = ["201"]) ∧
    ("201Ãƒ" ≠ "201") ∧
    ((legacyBuildOpenApiEndpoint parseNone
        ⟨"/x", "GET", some "S", none, none, none, none, none⟩).responses.map Prod.fst
      = ["200"]) ∧
    ((buildOpenApiEndpoint parseNone
        ⟨"/x", "GET", some "S", none, none, none, none, none⟩).responses.map Prod.fst
      = ["200"]) := by
  refine ⟨by decide, by decide, by decide, by decide, by decide⟩

theorem objSet_length_le {β : Type} (k : String) (v : β) (o : List (String × β)) :
    (objSet k v o).length ≤ o.length + 1 := by
  unfold objSet
  split
  · simp
  · simp

theorem keys_objSet_of_any {β : Type} (k : String) (v : β) (o : List (String × β))
    (h : o.any (fun p => p.1 == k) = true) :
    (objSet k v o).map Prod.fst = o.map Prod.fst := by
  unfold objSet
  rw [if_pos h, List.map_map]
  apply List.map_congr_left
  intro p _
  by_cases hp : p.1 == k
  · simp only [Function.comp_apply, if_pos hp]
    exact (beq_iff_eq.mp hp).symm
  · simp only [Function.comp_apply, if_neg hp]

theorem objSet_keysNodup {β : Type} (k : String) (v : β) {o : List (String × β)}
    (h : keysNodup o) : keysNodup (objSet k v o) := by
  unfold keysNodup
  by_cases hany : o.any (fun p => p.1 == k) = true
  · rw [keys_objSet_of_any k v o hany]
    exact h
  · unfold objSet
    rw [if_neg hany, List.map_append]
    have hk : k ∉ o.map Prod.fst := by
      intro hmem
      rcases List.mem_map.mp hmem with ⟨p, hp, hpk⟩
      exact hany (List.any_eq_true.mpr ⟨p, hp, beq_iff_eq.mpr hpk⟩)
    refine List.Nodup.append h ?_ ?_
    · simp
    · intro x hx hxk
      simp only [List.map_cons, List.map_nil, List.mem_singleton] at hxk
      exact hk (hxk ▸ hx)

theorem find_map_set {β : Type} (k : String) (v : β) (o : List (String × β)) :
    ((o.map (fun p => if p.1 == k then (k, v) else p)).find? (fun p => p.1 == k)) =
      (if o.any (fun p => p.1 == k) = true then some (k, v) else none) := by
  induction o with
  | nil => simp
  | cons p o ih =>
    by_cases hp : (p.1 == k) = true
    · simp [List.find?, hp]
    · have hpf : (p.1 == k) = false := by simpa using hp
      simp only [List.map_cons, hpf, Bool.false_eq_true, if_false, List.any_cons, Bool.false_or,
        List.find?, ih]

theorem find_append_new {β : Type} (k : String) (v : β) (o : List (String × β))
    (h : o.any (fun p => p.1 == k) = false) :
    ((o ++ [(k, v)]).find? (fun p => p.1 == k)) = some (k, v) := by
  induction o with
  | nil => simp [List.find?]
  | cons p o ih =>
    simp only [List.any_cons, Bool.or_eq_false_iff] at h
    simp only [List.cons_append, List.find?, h.1]
    exact ih h.2

theorem objLookup_objSet {β : Type} (k : String) (v : β) (o : List (String × β)) :
    objLookup k (objSet k v o) = some v := by
  unfold objLookup objSet
  by_cases hany : o.any (fun p => p.1 == k) = true
  · rw [if_pos hany, find_map_set, if_pos hany]
    rfl
  · rw [if_neg hany, find_append_new k v o (Bool.not_eq_true _ ▸ eq_false_of_ne_true hany)]
    rfl

theorem deleteKey_keysNodup {β : Type} (k : String) {o : List (String × β)}
    (h : keysNodup o) : keysNodup (deleteKey k o) := by
  unfold keysNodup deleteKey
  exact h.sublist ((List.filter_sublist o).map Prod.fst)

theorem length_deleteKey {β : Type} {k : String} {o : List (String × β)}
    (h : keysNodup o) (hm : k ∈ o.map Prod.fst) :
    (deleteKey k o).length = o.length - 1 := by
  induction o with
  | nil => cases hm
  | cons p o ih =>
    unfold keysNodup at h
    simp only [List.map_cons, List.nodup_cons] at h
    by_cases hp : p.1 = k
    · have hrest : ∀ q ∈ o, (q.1 != k) = true := by
        intro q hq
        have hqk : q.1 ≠ k := by
          intro hqk
          exact h.1 (hp ▸ hqk ▸ List.mem_map_of_mem Prod.fst hq)
        simpa using hqk
      have hhead : (p.1 != k) = false := by simpa using hp
      simp only [deleteKey, List.filter_cons, hhead, Bool.false_eq_true, if_false,
        List.filter_eq_self.mpr hrest, List.length_cons]
      omega
    · have hm2 : k ∈ o.map Prod.fst := by
        rcases List.mem_cons.mp hm with hx | hx
        · exact absurd hx.symm hp
        · exact hx
      have hlen : 0 < o.length := by
        rcases List.mem_map.mp hm2 with ⟨q, hq, _⟩
        exact List.length_pos.mpr (List.ne_nil_of_mem hq)
      have hhead : (p.1 != k) = true := by simpa using hp
      have ihr := ih h.2 hm2
      unfold deleteKey at ihr
      simp only [deleteKey, List.filter_cons, hhead, if_true, List.length_cons, ihr]
      omega

theorem mem_keys_deleteKey {β : Type} {j k : String} {o : List (String × β)}
    (hne : j ≠ k) (hj : j ∈ o.map Prod.fst) : j ∈ (deleteKey k o).map Prod.fst := by
  rcases List.mem_map.mp hj with ⟨p, hp, hpj⟩
  refine List.mem_map.mpr ⟨p, ?_, hpj⟩
  unfold deleteKey
  refine List.mem_filter.mpr ⟨hp, ?_⟩
  simpa using hpj ▸ hne

theorem foldl_deleteKey_length {β : Type} :
    ∀ (ks : List String) (o : List (String × β)), keysNodup o → ks.Nodup →
    (∀ j ∈ ks, j ∈ o.map Prod.fst) →
    (ks.foldl (fun acc k2 => deleteKey k2 acc) o).length = o.length - ks.length := by
  intro ks
  induction ks with
  | nil => intro o _ _ _; simp
  | cons k ks ih =>
    intro o hno hnk hmem
    simp only [List.foldl_cons, List.length_cons]
    have hkmem : k ∈ o.map Prod.fst := hmem k (List.mem_cons_self k ks)
    have h1 : (deleteKey k o).length = o.length - 1 := length_deleteKey hno hkmem
    have h2 := ih (deleteKey k o) (deleteKey_keysNodup k hno)
      (List.nodup_cons.mp hnk).2
      (fun j hj => mem_keys_deleteKey
        (fun hjk => (List.nodup_cons.mp hnk).1 (hjk ▸ hj)) (hmem j (List.mem_cons_of_mem k hj)))
    rw [h2, h1]
    omega

theorem saveToLTM_of_small {ρ : Type} (sig : String) (r : ρ) (now : Nat)
    {d : LTMStore ρ} (h : d.length < LTM_WINDOW_SIZE) :
    saveToLTM sig r now d = objSet sig ⟨r, some now⟩ d := by
  unfold saveToLTM
  have hle := objSet_length_le sig (⟨r, some now⟩ : LTMEntry ρ) d
  rw [if_neg (by omega)]

/-- C6: bounded retention.  For every well-formed store state, a put leaves
at most LTM_WINDOW_SIZE entries; and in the concrete scenario of
LTM_WINDOW_SIZE + 1 puts of distinct signatures with strictly increasing
timestamps into an empty store, exactly LTM_WINDOW_SIZE entries remain and
the missing one is the entry with the oldest recorded timestamp (sig0). -/
theorem claim_C6_bounded_retention {ρ : Type} (d : LTMStore ρ) (sig : String)
    (r : ρ) (now : Nat) (hnodup : keysNodup d) :
    (saveToLTM sig r now d).length ≤ LTM_WINDOW_SIZE ∧
    ltmScenarioStore.length = LTM_WINDOW_SIZE ∧
    objLookup "sig0" ltmScenarioStore = none ∧
    ((List.range LTM_WINDOW_SIZE).all
      (fun i => (objLookup ("sig" ++ toString (i + 1)) ltmScenarioStore).isSome)) = true := by
  refine ⟨?_, by decide, by decide, by decide⟩
  unfold saveToLTM
  by_cases hbig : (objSet sig ⟨r, some now⟩ d).length > LTM_WINDOW_SIZE
  · rw [if_pos hbig]
    set d2 := objSet sig (⟨r, some now⟩ : LTMEntry ρ) d with hd2
    have hn2 : keysNodup d2 := objSet_keysNodup sig _ hnodup
    have hperm : (sortBy tsLE d2).Perm d2 := sortBy_perm tsLE d2
    have hkeysNodup : ((sortBy tsLE d2).map Prod.fst).Nodup :=
      ((hperm.map Prod.fst).nodup_iff).mpr hn2
    set ks := ((sortBy tsLE d2).take (d2.length - LTM_WINDOW_SIZE)).map Prod.fst with hks
    have hksNodup : ks.Nodup := by
      rw [hks, List.map_take]
      exact hkeysNodup.sublist (List.take_sublist _ _)
    have hksMem : ∀ j ∈ ks, j ∈ d2.map Prod.fst := by
      intro j hj
      rw [hks] at hj
      rcases List.mem_map.mp hj with ⟨p, hp, hpj⟩
      exact List.mem_map.mpr ⟨p, hperm.subset (List.take_subset _ _ hp), hpj⟩
    have hksLen : ks.length = d2.length - LTM_WINDOW_SIZE := by
      rw [hks, List.length_map, List.length_take, hperm.length_eq]
      omega
    have := foldl_deleteKey_length ks d2 hn2 hksNodup hksMem
    rw [this, hksLen]
    omega
  · rw [if_neg hbig]
    omega

/-- Witness for C6, applying the theorem at an empty store. -/
theorem claim_C6_witness :
    keysNodup ([] : LTMStore String) ∧
    ((saveToLTM "k" "v" 0 ([] : LTMStore String)).length ≤ LTM_WINDOW_SIZE ∧
     ltmScenarioStore.length = LTM_WINDOW_SIZE ∧
     objLookup "sig0" ltmScenarioStore = none ∧
     ((List.range LTM_WINDOW_SIZE).all
       (fun i => (objLookup ("sig" ++ toString (i + 1)) ltmScenarioStore).isSome)) = true) :=
  ⟨by decide, claim_C6_bounded_retention [] "k" "v" 0 (by decide)⟩

/-- C7 counterexample: put followed by get does not always return the stored
value.  A falsy stored result (null) is reported as a miss by findInLTM; and
an insertion into a full store whose resident entries all carry later
timestamps than the new entry evicts the just-inserted entry itself. -/
theorem claim_C7_counterexample :
    findInLTM truthy "a" (saveToLTM "a" JVal.null 5 ([] : LTMStore JVal)) = none ∧
    findInLTM (fun _ => true) "a" (saveToLTM "a" "v" 5 ltmFutureStore) = none := by
  exact ⟨rfl, by decide⟩

/-- C7 (amended): the cache round trip holds for a truthy result whenever the
insertion does not immediately evict the new entry — in particular whenever
the store holds fewer than LTM_WINDOW_SIZE entries beforehand: put(sig, R)
followed by get(sig) then returns R. -/
theorem claim_C7_roundtrip_truthy {ρ : Type} (tr : ρ → Bool) (sig : String)
    (r : ρ) (now : Nat) (d : LTMStore ρ) (htr : tr r = true)
    (hsize : d.length < LTM_WINDOW_SIZE) :
    findInLTM tr sig (saveToLTM sig r now d) = some r := by
  rw [saveToLTM_of_small sig r now hsize]
  unfold findInLTM
  rw [objLookup_objSet]
  simp [htr, truthyTimestamp]

/-- Witness for C7, applying the theorem at an empty store. -/
theorem claim_C7_witness :
    (fun _ : String => true) "v" = true ∧
    ([] : LTMStore String).length < LTM_WINDOW_SIZE ∧
    findInLTM (fun _ => true) "sig" (saveToLTM "sig" "v" 7 ([] : LTMStore String)) = some "v" :=
  ⟨rfl, by decide, claim_C7_roundtrip_truthy (fun _ => true) "sig" "v" 7 [] rfl (by decide)⟩

/-- C10: an entry whose stored result is falsy, or whose stored timestamp is
missing or falsy, is reported as absent by findInLTM even though it occupies
a slot in the store. -/
theorem claim_C10_falsy_entry_absent {ρ : Type} (tr : ρ → Bool) (sig : String)
    (d : LTMStore ρ) (e : LTMEntry ρ) (hlook : objLookup sig d = some e)
    (hbad : tr e.result = false ∨ e.timestamp = none) :
    findInLTM tr sig d = none := by
  unfold findInLTM
  rw [hlook]
  rcases hbad with h | h
  · simp [h]
  · simp [truthyTimestamp, h]

/-- Witness for C10: a stored entry with the falsy result 0 behaves as
absent. -/
theorem claim_C10_witness :
    objLookup "s" [("s", (⟨JVal.num 0, some 5⟩ : LTMEntry JVal))] =
      some ⟨JVal.num 0, some 5⟩ ∧
    (truthy (JVal.num 0) = false ∨ (some 5 : Option Nat) = none) ∧
    findInLTM truthy "s" [("s", ⟨JVal.num 0, some 5⟩)] = none :=
  ⟨rfl, Or.inl rfl,
    claim_C10_falsy_entry_absent truthy "s" [("s", ⟨JVal.num 0, some 5⟩)]
      ⟨JVal.num 0, some 5⟩ rfl (Or.inl rfl)⟩

theorem settleStep_length {β : Type} (vs : List β) (acc : List (Option β)) (i : Nat) :
    (settleStep vs acc i).length = acc.length := by
  unfold settleStep
  split
  · exact List.length_set acc i _
  · rfl

theorem foldl_settleStep_length {β : Type} (vs : List β) :
    ∀ (order : List Nat) (acc : List (Option β)),
    (order.foldl (settleStep vs) acc).length = acc.length := by
  intro order
  induction order with
  | nil => intro acc; rfl
  | cons i rest ih =>
    intro acc
    rw [List.foldl_cons, ih, settleStep_length]

theorem foldl_settleStep_not_mem {β : Type} (vs : List β) :
    ∀ (order : List Nat) (acc : List (Option β)) (j : Nat), j ∉ order →
    (order.foldl (settleStep vs) acc)[j]? = acc[j]? := by
  intro order
  induction order with
  | nil => intro acc j _; rfl
  | cons i rest ih =>
    intro acc j hj
    rw [List.foldl_cons, ih _ j (fun h => hj (List.mem_cons_of_mem i h))]
    unfold settleStep
    split
    · refine List.getElem?_set_ne (fun h => hj ?_)
      rw [← h]
      exact List.mem_cons_self i rest
    · rfl

theorem foldl_settleStep_mem {β : Type} (vs : List β) :
    ∀ (order : List Nat) (acc : List (Option β)) (j : Nat) (v : β),
    acc.length = vs.length → vs[j]? = some v → j ∈ order →
    (order.foldl (settleStep vs) acc)[j]? = some (some v) := by
  intro order
  induction order with
  | nil => intro acc j v _ _ h; cases h
  | cons i rest ih =>
    intro acc j v hlen hv hj
    rw [List.foldl_cons]
    by_cases hjr : j ∈ rest
    · exact ih _ j v (by rw [settleStep_length, hlen]) hv hjr
    · have hij : j = i := by
        rcases List.mem_cons.mp hj with h | h
        · exact h
        · exact absurd h hjr
      subst hij
      rw [foldl_settleStep_not_mem vs rest _ j hjr]
      unfold settleStep
      rw [hv]
      have hjlt : j < acc.length := by
        by_contra hcon
        rw [List.getElem?_eq_none (Nat.le_of_not_lt (by rwa [hlen] at hcon))] at hv
        cases hv
      exact List.getElem?_set_self hjlt

theorem settleAll_complete {β : Type} (vs : List β) (order : List Nat)
    (h : ∀ j, j < vs.length → j ∈ order) :
    settleAll vs order = vs.map some := by
  apply List.ext_getElem?
  intro n
  by_cases hn : n < vs.length
  · have hv : vs[n]? = some vs[n] := List.getElem?_eq_getElem hn
    unfold settleAll
    rw [foldl_settleStep_mem vs order _ n vs[n] (by simp) hv (h n hn)]
    rw [List.getElem?_map, hv]
    rfl
  · have h1 : (settleAll vs order).length = vs.length := by
      unfold settleAll
      rw [foldl_settleStep_length]
      simp
    rw [List.getElem?_eq_none (by omega : (settleAll vs order).length ≤ n),
      List.getElem?_eq_none (by simpa using Nat.le_of_not_lt hn)]

theorem batchSettled_complete (worker : WorkerFun) (batch : List WorkItem) (order : List Nat)
    (h : completeOrder batch.length order = true) :
    batchSettled worker batch order = (batch.map (promiseValue worker)).map some := by
  unfold batchSettled
  apply settleAll_complete
  intro j hj
  rw [List.length_map] at hj
  exact of_decide_eq_true (List.all_eq_true.mp h j (List.mem_range.mpr hj))

theorem batch_fold_settled (parseJson : String → Option JVal) (lang : String)
    (worker : WorkerFun) (batch : List WorkItem) (order : List Nat) (st : LoopState)
    (h : completeOrder batch.length order = true) :
    (batchSettled worker batch order).foldl
      (fun s o => stepSettled parseJson lang s o.join) st =
    runSerial parseJson lang worker batch st := by
  rw [batchSettled_complete worker batch order h]
  unfold runSerial
  rw [List.foldl_map, List.foldl_map]
  congr 1

theorem runBatchesFuel_eq_serial (parseJson : String → Option JVal) (lang : String)
    (worker : WorkerFun) :
    ∀ (fuel : Nat) (files : List WorkItem) (orders : List (List Nat)) (st : LoopState),
    files.length ≤ fuel → validOrdersFuel fuel files orders = true →
    runBatchesFuel parseJson lang worker fuel files orders st =
      runSerial parseJson lang worker files st := by
  intro fuel
  induction fuel with
  | zero =>
    intro files orders st hle _
    have hnil : files = [] := List.length_eq_zero.mp (Nat.le_zero.mp hle)
    subst hnil
    rfl
  | succ fuel ih =>
    intro files orders st hle hvalid
    cases files with
    | nil => rfl
    | cons f rest =>
      simp only [runBatchesFuel]
      simp only [validOrdersFuel, Bool.and_eq_true] at hvalid
      rw [batch_fold_settled parseJson lang worker _ _ _ hvalid.1]
      rw [ih ((f :: rest).drop GEMINI_RPM_LIMIT) orders.tail _
        (by
          simp only [List.length_drop, List.length_cons]
          simp only [List.length_cons] at hle
          have hg : 1 ≤ GEMINI_RPM_LIMIT := by decide
          omega) hvalid.2]
      unfold runSerial
      rw [← List.foldl_append, List.take_append_drop]

theorem runBatches_eq_serial (parseJson : String → Option JVal) (lang : String)
    (worker : WorkerFun) (files : List WorkItem) (orders : List (List Nat)) (st : LoopState)
    (h : validOrders files orders = true) :
    runBatches parseJson lang worker files orders st =
      runSerial parseJson lang worker files st :=
  runBatchesFuel_eq_serial parseJson lang worker files.length files orders st le_rfl h

/-- C1: the batch dispatcher's merged outcome is independent of the
completion order of the concurrent worker calls within each batch — two runs
over the same items and worker that differ only in their (complete)
per-batch settlement orders produce the same final state: the same merged
paths object, the same file reports and the same endpoint total. -/
theorem claim_C1_merge_deterministic (parseJson : String → Option JVal) (lang : String)
    (worker : WorkerFun) (files : List WorkItem) (orders₁ orders₂ : List (List Nat))
    (st : LoopState)
    (h₁ : validOrders files orders₁ = true) (h₂ : validOrders files orders₂ = true) :
    runBatches parseJson lang worker files orders₁ st =
    runBatches parseJson lang worker files orders₂ st := by
  rw [runBatches_eq_serial parseJson lang worker files orders₁ st h₁,
    runBatches_eq_serial parseJson lang worker files orders₂ st h₂]

/-- Witness for C1: a one-batch run of two files whose promises settle in the
two possible orders merges to the same state. -/
theorem claim_C1_witness :
    validOrders [⟨"a.js", "x"⟩, ⟨"b.js", "y"⟩] [[1, 0]] = true ∧
    validOrders [⟨"a.js", "x"⟩, ⟨"b.js", "y"⟩] [[0, 1]] = true ∧
    runBatches parseNone "javascript"
      (fun f => if f.file_path = "a.js"
        then Except.ok (some ⟨some [⟨"/x", "get", some "S", none, none, none, none, none⟩]⟩)
        else Except.error "boom")
      [⟨"a.js", "x"⟩, ⟨"b.js", "y"⟩] [[1, 0]] ⟨[], [], 0⟩ =
    runBatches parseNone "javascript"
      (fun f => if f.file_path = "a.js"
        then Except.ok (some ⟨some [⟨"/x", "get", some "S", none, none, none, none, none⟩]⟩)
        else Except.error "boom")
      [⟨"a.js", "x"⟩, ⟨"b.js", "y"⟩] [[0, 1]] ⟨[], [], 0⟩ :=
  ⟨by decide, by decide,
    claim_C1_merge_deterministic parseNone "javascript"
      (fun f => if f.file_path = "a.js"
        then Except.ok (some ⟨some [⟨"/x", "get", some "S", none, none, none, none, none⟩]⟩)
        else Except.error "boom")
      [⟨"a.js", "x"⟩, ⟨"b.js", "y"⟩] [[1, 0]] [[0, 1]] ⟨[], [], 0⟩ (by decide) (by decide)⟩

theorem runSerial_paths (parseJson : String → Option JVal) (lang : String) (worker : WorkerFun) :
    ∀ (files : List WorkItem) (st : LoopState),
    (runSerial parseJson lang worker files st).paths =
      files.foldl (fun p f => pathsStep parseJson p (promiseValue worker f)) st.paths := by
  intro files
  induction files with
  | nil => intro st; rfl
  | cons f rest ih =>
    intro st
    unfold runSerial
    rw [List.foldl_cons, List.foldl_cons]
    exact ih ⟨pathsStep parseJson st.paths (promiseValue worker f), _, _⟩

theorem runSerial_reports (parseJson : String → Option JVal) (lang : String) (worker : WorkerFun) :
    ∀ (files : List WorkItem) (st : LoopState),
    (runSerial parseJson lang worker files st).reports =
      st.reports ++ files.map (fun f => reportFor lang (promiseValue worker f)) := by
  intro files
  induction files with
  | nil => intro st; simp [runSerial]
  | cons f rest ih =>
    intro st
    unfold runSerial
    rw [List.foldl_cons]
    show (runSerial parseJson lang worker rest (stepSettled parseJson lang st (promiseValue worker f))).reports = _
    rw [ih]
    simp [stepSettled]

theorem runSerial_total (parseJson : String → Option JVal) (lang : String) (worker : WorkerFun) :
    ∀ (files : List WorkItem) (st : LoopState),
    (runSerial parseJson lang worker files st).total =
      st.total + (files.map (fun f => totalFor (promiseValue worker f))).sum := by
  intro files
  induction files with
  | nil => intro st; simp [runSerial]
  | cons f rest ih =>
    intro st
    unfold runSerial
    rw [List.foldl_cons]
    show (runSerial parseJson lang worker rest (stepSettled parseJson lang st (promiseValue worker f))).total = _
    rw [ih]
    simp [stepSettled]
    omega

/-- C2: partial failure isolation.  In a run whose worker raises for the item
bad (with non-blank content), that item settles as an error outcome with a
null response; the merged paths object and the endpoint total equal those of
the reference run without the failing item (only successfully processed items
contribute); every item of every batch still contributes exactly one file
report; and the failing item's report, at its original position, records zero
endpoints and an empty documentation list. -/
theorem claim_C2_failure_isolated (parseJson : String → Option JVal) (lang : String)
    (worker : WorkerFun) (l₁ l₂ : List WorkItem) (bad : WorkItem)
    (orders : List (List Nat)) (p0 : PathsMap) (msg : String)
    (hsnip : jsTrim bad.code_snippet ≠ "")
    (hw : worker bad = Except.error msg)
    (horders : validOrders (l₁ ++ bad :: l₂) orders = true) :
    promiseValue worker bad = some ⟨bad, none, "error", some msg⟩ ∧
    (runBatches parseJson lang worker (l₁ ++ bad :: l₂) orders ⟨p0, [], 0⟩).paths =
      (runSerial parseJson lang worker (l₁ ++ l₂) ⟨p0, [], 0⟩).paths ∧
    (runBatches parseJson lang worker (l₁ ++ bad :: l₂) orders ⟨p0, [], 0⟩).total =
      (runSerial parseJson lang worker (l₁ ++ l₂) ⟨p0, [], 0⟩).total ∧
    (runBatches parseJson lang worker (l₁ ++ bad :: l₂) orders ⟨p0, [], 0⟩).reports.length =
      (l₁ ++ bad :: l₂).length ∧
    (runBatches parseJson lang worker (l₁ ++ bad :: l₂) orders ⟨p0, [], 0⟩).reports[l₁.length]? =
      some ⟨strOr bad.file_path "Unknown", none, 0, []⟩ := by
  have hne : bad.code_snippet ≠ "" := by
    intro h
    apply hsnip
    rw [h]
    rfl
  have hpv : promiseValue worker bad = some ⟨bad, none, "error", some msg⟩ := by
    unfold promiseValue
    have h1 : (bad.code_snippet == "") = false := by simpa using hne
    have h2 : (jsTrim bad.code_snippet == "") = false := by simpa using hsnip
    rw [h1, h2]
    simp [hw]
  have hserial := runBatches_eq_serial parseJson lang worker (l₁ ++ bad :: l₂) orders
    ⟨p0, [], 0⟩ horders
  have hpath0 : ∀ p, pathsStep parseJson p (promiseValue worker bad) = p := by
    intro p
    rw [hpv]
    rfl
  have htot0 : totalFor (promiseValue worker bad) = 0 := by
    rw [hpv]
    rfl
  have hrep0 : reportFor lang (promiseValue worker bad) =
      ⟨strOr bad.file_path "Unknown", none, 0, []⟩ := by
    rw [hpv]
    rfl
  refine ⟨hpv, ?_, ?_, ?_, ?_⟩
  · rw [hserial, runSerial_paths, runSerial_paths]
    rw [List.foldl_append, List.foldl_cons, hpath0, ← List.foldl_append]
  · rw [hserial, runSerial_total, runSerial_total]
    simp [List.sum_append, htot0]
  · rw [hserial, runSerial_reports]
    simp
  · rw [hserial, runSerial_reports]
    rw [List.nil_append, List.map_append, List.map_cons]
    rw [List.getElem?_append_right (by simp)]
    simp [hrep0]

/-- Witness for C2: three work items with the worker failing for item 2.  The
settled outcomes read Success, Failed, Success; the dispatcher still yields
one report per item, the failed item reports zero endpoints at its original
position, and the merged paths object equals that of the run over items 1 and
3 alone. -/
theorem claim_C2_witness :
    (([⟨"a.js", "x"⟩, ⟨"b.js", "y"⟩, ⟨"c.js", "z"⟩] : List WorkItem).map
      (fun f => (promiseValue (fun g => if g.file_path = "b.js" then Except.error "boom"
        else Except.ok (some ⟨some [⟨"/" ++ g.file_path, "get", some "S",
          none, none, none, none, none⟩]⟩)) f).map SettledVal.status))
      = [some "success", some "error", some "success"] ∧
    (runBatches parseNone "javascript"
        (fun g => if g.file_path = "b.js" then Except.error "boom"
          else Except.ok (some ⟨some [⟨"/" ++ g.file_path, "get", some "S",
            none, none, none, none, none⟩]⟩))
        [⟨"a.js", "x"⟩, ⟨"b.js", "y"⟩, ⟨"c.js", "z"⟩] [[0, 1, 2]] ⟨[], [], 0⟩).paths =
      (runSerial parseNone "javascript"
        (fun g => if g.file_path = "b.js" then Except.error "boom"
          else Except.ok (some ⟨some [⟨"/" ++ g.file_path, "get", some "S",
            none, none, none, none, none⟩]⟩))
        [⟨"a.js", "x"⟩, ⟨"c.js", "z"⟩] ⟨[], [], 0⟩).paths ∧
    (runBatches parseNone "javascript"
        (fun g => if g.file_path = "b.js" then Except.error "boom"
          else Except.ok (some ⟨some [⟨"/" ++ g.file_path, "get", some "S",
            none, none, none, none, none⟩]⟩))
        [⟨"a.js", "x"⟩, ⟨"b.js", "y"⟩, ⟨"c.js", "z"⟩] [[0, 1, 2]] ⟨[], [], 0⟩).reports.length = 3 ∧
    (runBatches parseNone "javascript"
        (fun g => if g.file_path = "b.js" then Except.error "boom"
          else Except.ok (some ⟨some [⟨"/" ++ g.file_path, "get", some "S",
            none, none, none, none, none⟩]⟩))
        [⟨"a.js", "x"⟩, ⟨"b.js", "y"⟩, ⟨"c.js", "z"⟩] [[0, 1, 2]] ⟨[], [], 0⟩).reports[1]? =
      some ⟨"b.js", none, 0, []⟩ :=
  ⟨by decide,
   (claim_C2_failure_isolated parseNone "javascript"
      (fun g => if g.file_path = "b.js" then Except.error "boom"
        else Except.ok (some ⟨some [⟨"/" ++ g.file_path, "get", some "S",
          none, none, none, none, none⟩]⟩))
      [⟨"a.js", "x"⟩] [⟨"c.js", "z"⟩] ⟨"b.js", "y"⟩ [[0, 1, 2]] [] "boom"
      (by decide) rfl (by decide)).2.1,
   (claim_C2_failure_isolated parseNone "javascript"
      (fun g => if g.file_path = "b.js" then Except.error "boom"
        else Except.ok (some ⟨some [⟨"/" ++ g.file_path, "get", some "S",
          none, none, none, none, none⟩]⟩))
      [⟨"a.js", "x"⟩] [⟨"c.js", "z"⟩] ⟨"b.js", "y"⟩ [[0, 1, 2]] [] "boom"
      (by decide) rfl (by decide)).2.2.2.1,
   (claim_C2_failure_isolated parseNone "javascript"
      (fun g => if g.file_path = "b.js" then Except.error "boom"
        else Except.ok (some ⟨some [⟨"/" ++ g.file_path, "get", some "S",
          none, none, none, none, none⟩]⟩))
      [⟨"a.js", "x"⟩] [⟨"c.js", "z"⟩] ⟨"b.js", "y"⟩ [[0, 1, 2]] [] "boom"
      (by decide) rfl (by decide)).2.2.2.2⟩

/-- C8: a task resubmitted with identical inputs hits the cache.  When the
first call misses (fresh task), finds a non-empty file set, and the store
well-formedly holds fewer than LTM_WINDOW_SIZE entries, the second call over
the same inputs performs zero worker invocations, leaves the store untouched,
and returns the first call's stored results/task verbatim apart from the
cache-hit marking, so in particular its ltm_hit flag is true and its
merged_documentation is identical to the first call's. -/
theorem claim_C8_cache_hit (parseJson : String → Option JVal)
    (resolveCommit : String → Option String) (t : TaskData) (files : List WorkItem)
    (priorPaths : PathsMap) (lang : String) (worker : WorkerFun) (orders : List (List Nat))
    (now₁ now₂ : Nat) (d : LTMStore ResTask)
    (hfiles : files ≠ [])
    (hsize : d.length < LTM_WINDOW_SIZE)
    (hmiss : findInLTM trueResTask (appSigInput resolveCommit t) d = none) :
    (handleExecute parseJson resolveCommit t files priorPaths lang worker orders now₁
        d).resTask.ltm_hit = false ∧
    (handleExecute parseJson resolveCommit t files priorPaths lang worker orders now₂
        (handleExecute parseJson resolveCommit t files priorPaths lang worker orders now₁
          d).store).workerCalls = 0 ∧
    (handleExecute parseJson resolveCommit t files priorPaths lang worker orders now₂
        (handleExecute parseJson resolveCommit t files priorPaths lang worker orders now₁
          d).store).store =
      (handleExecute parseJson resolveCommit t files priorPaths lang worker orders now₁
        d).store ∧
    (handleExecute parseJson resolveCommit t files priorPaths lang worker orders now₂
        (handleExecute parseJson resolveCommit t files priorPaths lang worker orders now₁
          d).store).resTask =
      annotateHit (handleExecute parseJson resolveCommit t files priorPaths lang worker orders
        now₁ d).resTask ∧
    (handleExecute parseJson resolveCommit t files priorPaths lang worker orders now₂
        (handleExecute parseJson resolveCommit t files priorPaths lang worker orders now₁
          d).store).resTask.merged_documentation =
      (handleExecute parseJson resolveCommit t files priorPaths lang worker orders now₁
        d).resTask.merged_documentation := by
  have hnotempty : files.isEmpty = false := by
    cases files with
    | nil => exact absurd rfl hfiles
    | cons a l => rfl
  have h1 : handleExecute parseJson resolveCommit t files priorPaths lang worker orders now₁ d =
      ⟨missResTask parseJson t files priorPaths lang worker orders,
       saveToLTM (appSigInput resolveCommit t)
         (missResTask parseJson t files priorPaths lang worker orders) now₁ d,
       countWorkerCalls files⟩ := by
    unfold handleExecute
    simp only [hmiss, hnotempty, Bool.false_eq_true, if_false]
  have hsave : findInLTM trueResTask (appSigInput resolveCommit t)
      (saveToLTM (appSigInput resolveCommit t)
        (missResTask parseJson t files priorPaths lang worker orders) now₁ d) =
      some (missResTask parseJson t files priorPaths lang worker orders) := by
    rw [saveToLTM_of_small _ _ _ hsize]
    unfold findInLTM
    rw [objLookup_objSet]
    rfl
  have h2 : handleExecute parseJson resolveCommit t files priorPaths lang worker orders now₂
      (saveToLTM (appSigInput resolveCommit t)
        (missResTask parseJson t files priorPaths lang worker orders) now₁ d) =
      ⟨annotateHit (missResTask parseJson t files priorPaths lang worker orders),
       saveToLTM (appSigInput resolveCommit t)
         (missResTask parseJson t files priorPaths lang worker orders) now₁ d, 0⟩ := by
    unfold handleExecute
    simp only [hsave]
  rw [h1]
  rw [h2]
  refine ⟨?_, rfl, rfl, rfl, rfl⟩
  simp only [missResTask]

/-- Witness for C8: one inline file analyzed successfully, then the same task
resubmitted against the resulting store. -/
theorem claim_C8_witness :
    (([⟨"a.js", "app"⟩] : List WorkItem) ≠ []) ∧
    ([] : LTMStore ResTask).length < LTM_WINDOW_SIZE ∧
    findInLTM trueResTask (appSigInput resolveNone taskOrderAB) ([] : LTMStore ResTask) = none ∧
    (handleExecute parseNone resolveNone taskOrderAB [⟨"a.js", "app"⟩] [] "javascript"
        (fun _ => Except.ok (some ⟨some [⟨"/x", "get", some "S", none, none, none, none,
          none⟩]⟩)) [[0]] 1 []).resTask.ltm_hit = false ∧
    (handleExecute parseNone resolveNone taskOrderAB [⟨"a.js", "app"⟩] [] "javascript"
        (fun _ => Except.ok (some ⟨some [⟨"/x", "get", some "S", none, none, none, none,
          none⟩]⟩)) [[0]] 2
        (handleExecute parseNone resolveNone taskOrderAB [⟨"a.js", "app"⟩] [] "javascript"
          (fun _ => Except.ok (some ⟨some [⟨"/x", "get", some "S", none, none, none, none,
            none⟩]⟩)) [[0]] 1 []).store).workerCalls = 0 ∧
    (handleExecute parseNone resolveNone taskOrderAB [⟨"a.js", "app"⟩] [] "javascript"
        (fun _ => Except.ok (some ⟨some [⟨"/x", "get", some "S", none, none, none, none,
          none⟩]⟩)) [[0]] 2
        (handleExecute parseNone resolveNone taskOrderAB [⟨"a.js", "app"⟩] [] "javascript"
          (fun _ => Except.ok (some ⟨some [⟨"/x", "get", some "S", none, none, none, none,
            none⟩]⟩)) [[0]] 1 []).store).resTask =
      annotateHit (handleExecute parseNone resolveNone taskOrderAB [⟨"a.js", "app"⟩] []
        "javascript"
        (fun _ => Except.ok (some ⟨some [⟨"/x", "get", some "S", none, none, none, none,
          none⟩]⟩)) [[0]] 1 []).resTask := by
  have hmain := claim_C8_cache_hit parseNone resolveNone taskOrderAB [⟨"a.js", "app"⟩] []
    "javascript"
    (fun _ => Except.ok (some ⟨some [⟨"/x", "get", some "S", none, none, none, none, none⟩]⟩))
    [[0]] 1 2 [] (by simp) (by decide) rfl
  exact ⟨by simp, by decide, rfl, hmain.1, hmain.2.1, hmain.2.2.2.1⟩
